import Mathlib

/-!
Verification of the caption-synchronization and video-composition core of the
headline_surfers repository (src/video_creator.py), shallowly embedded in Lean.
Text is modelled as a list of characters, times as rationals.
-/

namespace HeadlineSurfers

/-- A timed transcript segment produced by the speech recognizer
(`result["segments"]` in `generate_captions`). -/
structure TranscriptSegment where
  start : ℚ
  endTime : ℚ
  text : List Char
  deriving DecidableEq, Repr

/-- A caption: display text plus a timing window, as built by the aligner
loop in `create_tiktok_video` (step 4). -/
structure Caption where
  text : List Char
  start : ℚ
  endTime : ℚ
  deriving DecidableEq, Repr

/- ---------------------------------------------------------------------
   Sentence splitter: step 3 of create_tiktok_video.
     text = ' '.join(text.split())
     for part in re.split on [.!?]: part = part.strip(); if part: keep
   --------------------------------------------------------------------- -/

/-- ASCII whitespace recognized by Python str.split / str.strip. -/
def isPySpace (c : Char) : Bool :=
  c = ' ' || c = '\t' || c = '\n' || c = '\r' || c = '\x0b' || c = '\x0c'

/-- Helper for `splitWords`: accumulates the current word (reversed). -/
def splitWordsAux : List Char → List Char → List (List Char)
  | [], acc => if acc = [] then [] else [acc.reverse]
  | c :: cs, acc =>
    if isPySpace c then
      if acc = [] then splitWordsAux cs [] else acc.reverse :: splitWordsAux cs []
    else
      splitWordsAux cs (c :: acc)

/-- Python `text.split()`: split on runs of whitespace, dropping empties. -/
def splitWords (text : List Char) : List (List Char) :=
  splitWordsAux text []

/-- Python `' '.join(ws)`. -/
def joinWords : List (List Char) → List Char
  | [] => []
  | [w] => w
  | w :: ws => w ++ ' ' :: joinWords ws

/-- `' '.join(text.split())` — the whitespace normalization applied to the
narration text before sentence splitting. -/
def normalizeText (text : List Char) : List Char :=
  joinWords (splitWords text)

/-- The sentence-terminal delimiter set of the re.split call. -/
def isTerminalPunct (c : Char) : Bool :=
  c = '.' || c = '!' || c = '?'

/-- Helper for `splitOnPunct`: accumulates the current piece (reversed).
`re.split` yields one piece per gap, empties included. -/
def splitOnPunctAux : List Char → List Char → List (List Char)
  | [], acc => [acc.reverse]
  | c :: cs, acc =>
    if isTerminalPunct c then acc.reverse :: splitOnPunctAux cs []
    else splitOnPunctAux cs (c :: acc)

/-- Python re.split of the text on the characters [.!?]. -/
def splitOnPunct (text : List Char) : List (List Char) :=
  splitOnPunctAux text []

/-- Python `part.strip()`: drop leading and trailing whitespace. -/
def strip (s : List Char) : List Char :=
  ((s.dropWhile isPySpace).reverse.dropWhile isPySpace).reverse

/-- Step 3 of `create_tiktok_video`: normalize spacing, split on `[.!?]`,
strip each piece, keep the non-empty ones, in order. -/
def splitSentences (text : List Char) : List (List Char) :=
  (((splitOnPunct (normalizeText text)).map strip).filter (fun p => p ≠ []))

/- ---------------------------------------------------------------------
   Segment aligner: step 4 of create_tiktok_video.
   One pass over the sentences; while segments remain, timing is borrowed
   verbatim; afterwards synthetic 3-second windows are chained from the
   last caption end (0 when there is no previous caption).
   --------------------------------------------------------------------- -/

/-- The aligner loop with the remaining segments and the `last_end` value
(`captions[-1].end if captions else 0`) threaded through. -/
def alignGo : List TranscriptSegment → ℚ → List (List Char) → List Caption
  | _, _, [] => []
  | seg :: segRest, _, s :: rest =>
    { text := s, start := seg.start, endTime := seg.endTime }
      :: alignGo segRest seg.endTime rest
  | [], lastEnd, s :: rest =>
    { text := s, start := lastEnd, endTime := lastEnd + 3 }
      :: alignGo [] (lastEnd + 3) rest

/-- Step 4 of `create_tiktok_video`: match sentences with audio segments. -/
def alignCaptions (sentences : List (List Char)) (segments : List TranscriptSegment) :
    List Caption :=
  alignGo segments 0 sentences

/-- The value of `last_end` after the aligner has consumed all given
segments: the final segment end, or the incoming value when there are no
segments. -/
def lastEndAfter : List TranscriptSegment → ℚ → ℚ
  | [], lastEnd => lastEnd
  | seg :: segRest, _ => lastEndAfter segRest seg.endTime

/- ---------------------------------------------------------------------
   Greedy line wrap: the first half of create_caption_image.
     for word in words:
       if current_length + len(word) + 1 <= 30: append to current_line
       else: flush current_line (if non-empty), start fresh with word
     flush the final current_line.
   Lines are kept as word lists; the rendered line is joinWords.
   --------------------------------------------------------------------- -/

/-- The wrap loop of `create_caption_image`, with `current_line` and
`current_length` threaded through. -/
def wrapAux : List (List Char) → List (List Char) → ℕ → List (List (List Char))
  | [], currentLine, _ => if currentLine = [] then [] else [currentLine]
  | w :: ws, currentLine, currentLength =>
    if currentLength + w.length + 1 ≤ 30 then
      wrapAux ws (currentLine ++ [w]) (currentLength + w.length + 1)
    else
      if currentLine = [] then wrapAux ws [w] w.length
      else currentLine :: wrapAux ws [w] w.length

/-- `create_caption_image` line wrapping: split the text into words and
greedily pack them into lines of soft budget 30. -/
def wrapLines (text : List Char) : List (List (List Char)) :=
  wrapAux (splitWords text) [] 0

/- ---------------------------------------------------------------------
   Font auto-fit: the second half of create_caption_image.
     font_size = 120; min_font_size = 60
     if text_width > width - 100:
       scale_factor = (width - 100) / text_width
       font_size = max(int(font_size * scale_factor), min_font_size)
   The measured PIL bounding-box width at size 120 is a parameter.
   --------------------------------------------------------------------- -/

/-- Python `int()` on a rational: truncation toward zero. -/
def truncInt (q : ℚ) : ℤ :=
  if 0 ≤ q then ⌊q⌋ else ⌈q⌉

/-- The auto-fit computation of `create_caption_image`. `width` is the
canvas width, `textWidth` the measured bounding-box width at size 120. -/
def autoFitFontSize (width : ℤ) (textWidth : ℚ) : ℤ :=
  let fontSize : ℤ := 120
  let minFontSize : ℤ := 60
  if textWidth > (width : ℚ) - 100 then
    let scaleFactor : ℚ := ((width : ℚ) - 100) / textWidth
    let newSize := truncInt ((fontSize : ℚ) * scaleFactor)
    max newSize minFontSize
  else fontSize

/- ---------------------------------------------------------------------
   Background clip selector: get_random_start_time.
     if total_duration < required_duration: return 0.0
     return random.uniform(0, total_duration - required_duration)
   The probed asset duration and the unit random draw are parameters;
   random.uniform(0, b) is 0 + b * r with r drawn from [0, 1].
   --------------------------------------------------------------------- -/

/-- `get_random_start_time`, with the probed `total_duration` and the unit
random draw `r` of `random.uniform` made explicit. -/
def get_random_start_time (totalDuration requiredDuration r : ℚ) : ℚ :=
  if totalDuration < requiredDuration then 0
  else (totalDuration - requiredDuration) * r

/- ---------------------------------------------------------------------
   Composition plan: steps 7-13 of create_tiktok_video.
   The sequential reassignments of the ffmpeg stream variable are recorded
   as an ordered stage list; the audio input and the single ffmpeg.run
   call are recorded alongside.
   --------------------------------------------------------------------- -/

/-- One video filter stage of the ffmpeg graph built by
`create_tiktok_video`. -/
inductive Stage where
  | scale (w h : ℤ)
  | pad (w h : ℤ)
  | loopStage (count : ℤ) (size : ℤ)
  | trim (duration : ℚ)
  | overlay (enableStart enableEnd fadeInStart fadeInDur fadeOutStart fadeOutDur : ℚ)
  deriving DecidableEq, Repr

/-- The composition plan: ordered video stages, number of attached audio
streams, number of encoder invocations. -/
structure CompositionPlan where
  stages : List Stage
  audioStreams : ℕ
  encoderRuns : ℕ
  deriving DecidableEq, Repr

/-- Steps 8-9 of `create_tiktok_video`: scale, pad, loop, trim applied to
the background input. -/
def baseStages (audioDuration : ℚ) : List Stage :=
  [Stage.scale 1080 (-1),
   Stage.pad 1080 1920,
   Stage.loopStage 0 (truncInt audioDuration),
   Stage.trim audioDuration]

/-- Step 10 of `create_tiktok_video`: the overlay stage of one caption,
with the fade filter arguments (`fade in` from `start`, `fade out` from
`end - 0.2`, both of duration 0.2) and the `between(t, start, end)`
enable window. -/
def overlayStage (c : Caption) : Stage :=
  Stage.overlay c.start c.endTime c.start (1/5) (c.endTime - 1/5) (1/5)

/-- Steps 7-13 of `create_tiktok_video`: the full composition plan for a
given audio duration and caption list, built by appending one overlay
stage per caption to the base chain, then attaching the narration audio
and invoking the encoder once. -/
def buildCompositionPlan (audioDuration : ℚ) (captions : List Caption) :
    CompositionPlan :=
  { stages := captions.foldl (fun acc c => acc ++ [overlayStage c]) (baseStages audioDuration)
    audioStreams := 1
    encoderRuns := 1 }

/- ---------------------------------------------------------------------
   Error flow of create_tiktok_video.
   The body runs inside one try; the except clause prints
   "Error creating TikTok video: {e}" and re-raises the SAME exception.
   External effects (file check, whisper, PIL rendering, ffmpeg.run) are
   parameters of the environment; the observable effect order is traced.
   --------------------------------------------------------------------- -/

/-- The message of the exception raised by `check_video_exists`. -/
def bgMissingMsg : String :=
  "Subway Surfers video not found. Please add the video file to assets/subway_surfers/gameplay.mp4"

/-- Observable events of one `create_tiktok_video` run. -/
inductive Event where
  | transcribed
  | captionWritten (text : List Char)
  | encoderRan
  | printedError (msg : String)
  deriving DecidableEq, Repr

/-- The external world of one job: whether the background asset exists,
what the transcription call returns or raises, what each caption render
returns or raises, and whether the encoder run succeeds. -/
structure JobEnv where
  backgroundExists : Bool
  transcription : Except String (List TranscriptSegment)
  renderCaption : List Char → Except String String
  encodeResult : Except String Unit

/-- Step 10 of `create_tiktok_video`: render each caption image in caption
order; the first raising render aborts the loop. -/
def renderLoop (env : JobEnv) : List Caption → List Event × Except String Unit
  | [] => ([], Except.ok ())
  | c :: rest =>
    match env.renderCaption c.text with
    | Except.error e => ([], Except.error e)
    | Except.ok _ =>
      let (evs, r) := renderLoop env rest
      (Event.captionWritten c.text :: evs, r)

/-- The body of the try block of `create_tiktok_video`: asset check, then
transcription, then splitting and alignment, then per-caption rendering,
then the single encoder run. -/
def tryBody (env : JobEnv) (text : List Char) : List Event × Except String Unit :=
  if env.backgroundExists = false then ([], Except.error bgMissingMsg)
  else
    match env.transcription with
    | Except.error e => ([Event.transcribed], Except.error e)
    | Except.ok segments =>
      let captions := alignCaptions (splitSentences text) segments
      let (evs, r) := renderLoop env captions
      match r with
      | Except.error e => (Event.transcribed :: evs, Except.error e)
      | Except.ok _ =>
        match env.encodeResult with
        | Except.error e => (Event.transcribed :: evs, Except.error e)
        | Except.ok _ =>
          (Event.transcribed :: evs ++ [Event.encoderRan], Except.ok ())

/-- `create_tiktok_video` error flow: run the try body; on failure print
"Error creating TikTok video: {e}" and re-raise the same exception. -/
def createTiktokVideoRun (env : JobEnv) (text : List Char) :
    List Event × Except String Unit :=
  let (evs, r) := tryBody env text
  match r with
  | Except.ok _ => (evs, Except.ok ())
  | Except.error e =>
    (evs ++ [Event.printedError ("Error creating TikTok video: " ++ e)], Except.error e)

/- ---------------------------------------------------------------------
   Aligner lemmas.
   --------------------------------------------------------------------- -/

lemma alignGo_length (sentences : List (List Char)) :
    ∀ (segments : List TranscriptSegment) (lastEnd : ℚ),
      (alignGo segments lastEnd sentences).length = sentences.length := by
  induction sentences with
  | nil => intro segs lastEnd; cases segs <;> rfl
  | cons s rest ih =>
    intro segs lastEnd
    cases segs with
    | nil => simpa [alignGo] using ih [] (lastEnd + 3)
    | cons seg segRest => simpa [alignGo] using ih segRest seg.endTime

lemma alignGo_map_text (sentences : List (List Char)) :
    ∀ (segments : List TranscriptSegment) (lastEnd : ℚ),
      (alignGo segments lastEnd sentences).map Caption.text = sentences := by
  induction sentences with
  | nil => intro segs lastEnd; cases segs <;> rfl
  | cons s rest ih =>
    intro segs lastEnd
    cases segs with
    | nil => simpa [alignGo] using ih [] (lastEnd + 3)
    | cons seg segRest => simpa [alignGo] using ih segRest seg.endTime

lemma alignGo_getD_lt (sentences : List (List Char)) :
    ∀ (segments : List TranscriptSegment) (lastEnd : ℚ) (i : ℕ),
      i < sentences.length → i < segments.length →
      (alignGo segments lastEnd sentences).getD i ⟨[], 0, 0⟩ =
        { text := sentences.getD i [],
          start := (segments.getD i ⟨0, 0, []⟩).start,
          endTime := (segments.getD i ⟨0, 0, []⟩).endTime } := by
  induction sentences with
  | nil => intro segs lastEnd i hn _; exact absurd hn (by simp)
  | cons s rest ih =>
    intro segs lastEnd i hn hm
    cases segs with
    | nil => exact absurd hm (by simp)
    | cons seg segRest =>
      cases i with
      | zero => rfl
      | succ j =>
        have hn' : j < rest.length := Nat.lt_of_succ_lt_succ hn
        have hm' : j < segRest.length := Nat.lt_of_succ_lt_succ hm
        simpa [alignGo, List.getD_cons_succ] using ih segRest seg.endTime j hn' hm'

lemma alignGo_getD_ge (sentences : List (List Char)) :
    ∀ (segments : List TranscriptSegment) (lastEnd : ℚ) (i : ℕ),
      segments.length ≤ i → i < sentences.length →
      (alignGo segments lastEnd sentences).getD i ⟨[], 0, 0⟩ =
        { text := sentences.getD i [],
          start := lastEndAfter segments lastEnd + 3 * ((i - segments.length : ℕ) : ℚ),
          endTime := lastEndAfter segments lastEnd + 3 * ((i - segments.length : ℕ) : ℚ) + 3 } := by
  induction sentences with
  | nil => intro segs lastEnd i _ hn; exact absurd hn (by simp)
  | cons s rest ih =>
    intro segs lastEnd i hm hn
    cases segs with
    | nil =>
      cases i with
      | zero => simp [alignGo, lastEndAfter]
      | succ j =>
        have hn' : j < rest.length := Nat.lt_of_succ_lt_succ hn
        have h := ih [] (lastEnd + 3) j (Nat.zero_le j) hn'
        simp only [alignGo, List.getD_cons_succ, lastEndAfter, List.length_nil,
          Nat.sub_zero] at h ⊢
        rw [h]
        simp only [Caption.mk.injEq]
        refine ⟨trivial, ?_, ?_⟩ <;> push_cast <;> ring
    | cons seg segRest =>
      cases i with
      | zero => exact absurd hm (by simp)
      | succ j =>
        have hn' : j < rest.length := Nat.lt_of_succ_lt_succ hn
        have hm' : segRest.length ≤ j := Nat.le_of_succ_le_succ hm
        have h := ih segRest seg.endTime j hm' hn'
        simpa [alignGo, List.getD_cons_succ, lastEndAfter, Nat.succ_sub_succ] using h

lemma lastEndAfter_eq_getD (segments : List TranscriptSegment) :
    ∀ (lastEnd : ℚ), segments ≠ [] →
      lastEndAfter segments lastEnd =
        (segments.getD (segments.length - 1) ⟨0, 0, []⟩).endTime := by
  induction segments with
  | nil => intro lastEnd h; exact absurd rfl h
  | cons seg segRest ih =>
    intro lastEnd _
    cases segRest with
    | nil => rfl
    | cons seg2 segRest2 =>
      have h := ih (seg.endTime) (by simp)
      simpa [lastEndAfter, List.length_cons, Nat.succ_sub_one] using h

lemma alignGo_start_lt_end (sentences : List (List Char)) :
    ∀ (segments : List TranscriptSegment) (lastEnd : ℚ),
      (∀ s ∈ segments, s.start < s.endTime) →
      ∀ c ∈ alignGo segments lastEnd sentences, c.start < c.endTime := by
  induction sentences with
  | nil => intro segs lastEnd _ c hc; cases segs <;> simp [alignGo] at hc
  | cons s rest ih =>
    intro segs lastEnd hseg c hc
    cases segs with
    | nil =>
      simp only [alignGo, List.mem_cons] at hc
      rcases hc with rfl | hc
      · show lastEnd < lastEnd + 3
        linarith
      · exact ih [] (lastEnd + 3) (by simp) c hc
    | cons seg segRest =>
      simp only [alignGo, List.mem_cons] at hc
      rcases hc with rfl | hc
      · exact hseg seg (List.mem_cons_self _ _)
      · exact ih segRest seg.endTime (fun x hx => hseg x (List.mem_cons_of_mem _ hx)) c hc

lemma alignGo_chain (sentences : List (List Char)) :
    ∀ (segments : List TranscriptSegment) (lastEnd : ℚ),
      (∀ s ∈ segments, s.start < s.endTime) →
      List.Chain' (fun a b => a.start ≤ b.start) segments →
      List.Chain' (fun a b : Caption => a.start ≤ b.start)
        (alignGo segments lastEnd sentences) := by
  induction sentences with
  | nil => intro segs lastEnd _ _; cases segs <;> simp [alignGo]
  | cons s rest ih =>
    intro segs lastEnd hseg hchain
    cases segs with
    | nil =>
      show List.Chain' _
        ({ text := s, start := lastEnd, endTime := lastEnd + 3 : Caption }
          :: alignGo [] (lastEnd + 3) rest)
      refine List.Chain'.cons' (ih [] (lastEnd + 3) (by simp) (by simp)) ?_
      intro y hy
      cases rest with
      | nil => simp [alignGo] at hy
      | cons r rest2 =>
        simp only [alignGo, List.head?_cons, Option.mem_some_iff] at hy
        subst hy
        show lastEnd ≤ lastEnd + 3
        linarith
    | cons seg segRest =>
      have hseg' : ∀ x ∈ segRest, x.start < x.endTime :=
        fun x hx => hseg x (List.mem_cons_of_mem _ hx)
      show List.Chain' _
        ({ text := s, start := seg.start, endTime := seg.endTime : Caption }
          :: alignGo segRest seg.endTime rest)
      refine List.Chain'.cons' (ih segRest seg.endTime hseg' hchain.tail) ?_
      intro y hy
      cases rest with
      | nil => simp [alignGo] at hy
      | cons r rest2 =>
        cases segRest with
        | nil =>
          simp only [alignGo, List.head?_cons, Option.mem_some_iff] at hy
          subst hy
          show seg.start ≤ seg.endTime
          exact le_of_lt (hseg seg (List.mem_cons_self _ _))
        | cons seg2 segRest2 =>
          simp only [alignGo, List.head?_cons, Option.mem_some_iff] at hy
          subst hy
          show seg.start ≤ seg2.start
          exact (List.chain'_cons.mp hchain).1

/-- C1: for N sentences and M transcript segments the aligner produces
exactly N captions in original sentence order; for i < M the caption
borrows text Sentence[i] and the timing of Segment[i] verbatim; for
M ≤ i (with a predecessor caption) the caption starts at the end of the
previous caption and ends 3.0 seconds after its own start; extra segments
beyond N produce no captions (only N captions exist). -/
theorem aligner_yields_one_caption_per_sentence
    (sentences : List (List Char)) (segments : List TranscriptSegment) :
    (alignCaptions sentences segments).length = sentences.length ∧
    (alignCaptions sentences segments).map Caption.text = sentences ∧
    (∀ i, i < sentences.length → i < segments.length →
      (alignCaptions sentences segments).getD i ⟨[], 0, 0⟩ =
        { text := sentences.getD i [],
          start := (segments.getD i ⟨0, 0, []⟩).start,
          endTime := (segments.getD i ⟨0, 0, []⟩).endTime }) ∧
    (∀ i, segments.length ≤ i → 1 ≤ i → i < sentences.length →
      ((alignCaptions sentences segments).getD i ⟨[], 0, 0⟩).start =
        ((alignCaptions sentences segments).getD (i - 1) ⟨[], 0, 0⟩).endTime ∧
      ((alignCaptions sentences segments).getD i ⟨[], 0, 0⟩).endTime =
        ((alignCaptions sentences segments).getD i ⟨[], 0, 0⟩).start + 3) := by
  simp only [alignCaptions]
  refine ⟨alignGo_length sentences segments 0, alignGo_map_text sentences segments 0,
    fun i hn hm => alignGo_getD_lt sentences segments 0 i hn hm, ?_⟩
  intro i hm h1 hn
  have hcur := alignGo_getD_ge sentences segments 0 i hm hn
  rcases Nat.lt_or_ge (i - 1) segments.length with hlt | hge
  · have hM : segments.length = i := by omega
    have hprev := alignGo_getD_lt sentences segments 0 (i - 1) (by omega) hlt
    have hne : segments ≠ [] := by
      intro h
      rw [h] at hM
      simp at hM
      omega
    have hlast := lastEndAfter_eq_getD segments 0 hne
    rw [hcur, hprev]
    have hz : ((i - segments.length : ℕ) : ℚ) = 0 := by
      rw [hM]
      simp
    constructor
    · show lastEndAfter segments 0 + 3 * ((i - segments.length : ℕ) : ℚ) =
        (segments.getD (i - 1) ⟨0, 0, []⟩).endTime
      rw [hz, hlast, hM]
      ring
    · show lastEndAfter segments 0 + 3 * ((i - segments.length : ℕ) : ℚ) + 3 =
        lastEndAfter segments 0 + 3 * ((i - segments.length : ℕ) : ℚ) + 3
      rfl
  · have hprev := alignGo_getD_ge sentences segments 0 (i - 1) hge (by omega)
    rw [hcur, hprev]
    have hstep : i - segments.length = (i - 1 - segments.length) + 1 := by omega
    constructor
    · show lastEndAfter segments 0 + 3 * ((i - segments.length : ℕ) : ℚ) =
        lastEndAfter segments 0 + 3 * ((i - 1 - segments.length : ℕ) : ℚ) + 3
      rw [hstep]
      push_cast
      ring
    · rfl

/-- Witness for C1 at sentences [[a], [b], [c]] and one segment (0, 2):
three captions, caption 0 borrows the segment timing, caption 2 starts at
the end of caption 1 and ends 3 seconds later. -/
theorem aligner_yields_one_caption_per_sentence_witness :
    (alignCaptions [['a'], ['b'], ['c']] [⟨0, 2, []⟩]).length = 3 ∧
    (alignCaptions [['a'], ['b'], ['c']] [⟨0, 2, []⟩]).getD 0 ⟨[], 0, 0⟩ =
      { text := ['a'], start := 0, endTime := 2 } ∧
    ((alignCaptions [['a'], ['b'], ['c']] [⟨0, 2, []⟩]).getD 2 ⟨[], 0, 0⟩).start =
      ((alignCaptions [['a'], ['b'], ['c']] [⟨0, 2, []⟩]).getD 1 ⟨[], 0, 0⟩).endTime := by
  have h := aligner_yields_one_caption_per_sentence [['a'], ['b'], ['c']] [⟨0, 2, []⟩]
  exact ⟨by simpa using h.1,
    by simpa using h.2.2.1 0 (by decide) (by decide),
    (h.2.2.2 2 (by decide) (by decide) (by decide)).1⟩

/-- C2 (Scenario A): the text "Hello world. This is great! Are you sure?"
with segments (0.0, 1.5) and (1.6, 3.0) yields exactly the three captions
(Hello world, 0, 1.5), (This is great, 1.6, 3) and (Are you sure, 3, 6). -/
theorem scenario_a_three_captions :
    alignCaptions
        (splitSentences (("Hello world. This is great! Are you sure?").toList))
        [{ start := 0, endTime := 3 / 2, text := ("Hello world").toList },
         { start := 8 / 5, endTime := 3, text := ("This is great").toList }] =
      [{ text := ("Hello world").toList, start := 0, endTime := 3 / 2 },
       { text := ("This is great").toList, start := 8 / 5, endTime := 3 },
       { text := ("Are you sure").toList, start := 3, endTime := 6 }] := by
  have hs : splitSentences (("Hello world. This is great! Are you sure?").toList) =
      [("Hello world").toList, ("This is great").toList, ("Are you sure").toList] := by
    decide
  rw [hs]
  simp only [alignCaptions, alignGo, Caption.mk.injEq, List.cons.injEq, and_true, true_and]
  norm_num

/-- C3: under the transcription engine contract (each segment ends after
it starts, segment starts non-decreasing), every caption ends strictly
after it starts and caption start times are non-decreasing across the
sequence. -/
theorem captions_strict_and_monotone
    (sentences : List (List Char)) (segments : List TranscriptSegment)
    (hseg : ∀ s ∈ segments, s.start < s.endTime)
    (hmono : List.Chain' (fun a b => a.start ≤ b.start) segments) :
    (∀ c ∈ alignCaptions sentences segments, c.start < c.endTime) ∧
    List.Chain' (fun a b : Caption => a.start ≤ b.start)
      (alignCaptions sentences segments) :=
  ⟨alignGo_start_lt_end sentences segments 0 hseg,
   alignGo_chain sentences segments 0 hseg hmono⟩

/-- Witness for C3: two sentences against one segment (1, 2) satisfy the
engine contract and give strictly ordered, monotone captions. -/
theorem captions_strict_and_monotone_witness :
    (∀ s ∈ [({ start := 1, endTime := 2, text := [] } : TranscriptSegment)],
      s.start < s.endTime) ∧
    ((∀ c ∈ alignCaptions [['a'], ['b']] [⟨1, 2, []⟩], c.start < c.endTime) ∧
      List.Chain' (fun a b : Caption => a.start ≤ b.start)
        (alignCaptions [['a'], ['b']] [⟨1, 2, []⟩])) :=
  ⟨by
     intro s hs
     rw [List.mem_singleton] at hs
     subst hs
     norm_num,
   captions_strict_and_monotone [['a'], ['b']] [⟨1, 2, []⟩]
     (by
       intro s hs
       rw [List.mem_singleton] at hs
       subst hs
       norm_num)
     (List.chain'_singleton _)⟩

/-- C10: with zero transcript segments the synthetic chain is anchored at
time 0: caption i runs from 3i to 3(i+1), and for a non-empty sentence
list the first caption starts at 0. -/
theorem empty_transcript_anchors_at_zero
    (sentences : List (List Char)) (i : ℕ) (hi : i < sentences.length) :
    (alignCaptions sentences []).getD i ⟨[], 0, 0⟩ =
      { text := sentences.getD i [],
        start := 3 * (i : ℚ),
        endTime := 3 * ((i : ℚ) + 1) } ∧
    (sentences ≠ [] → ((alignCaptions sentences []).getD 0 ⟨[], 0, 0⟩).start = 0) := by
  constructor
  · have h := alignGo_getD_ge sentences [] 0 i (Nat.zero_le i) hi
    simp only [alignCaptions]
    rw [h]
    simp only [lastEndAfter, List.length_nil, Nat.sub_zero, Caption.mk.injEq]
    refine ⟨trivial, by ring, by ring⟩
  · intro hne
    have h0 : 0 < sentences.length := List.length_pos.mpr hne
    have h := alignGo_getD_ge sentences [] 0 0 (Nat.zero_le 0) h0
    simp only [alignCaptions]
    rw [h]
    simp [lastEndAfter]

/-- Witness for C10 at three sentences, index 1: the caption runs from 3
to 6 and the first caption starts at 0. -/
theorem empty_transcript_anchors_at_zero_witness :
    (1 < ([['a'], ['b'], ['c']] : List (List Char)).length) ∧
    ((alignCaptions [['a'], ['b'], ['c']] []).getD 1 ⟨[], 0, 0⟩ =
      { text := ['b'], start := 3 * (1 : ℚ), endTime := 3 * ((1 : ℚ) + 1) } ∧
    ([['a'], ['b'], ['c']] ≠ ([] : List (List Char)) →
      ((alignCaptions [['a'], ['b'], ['c']] []).getD 0 ⟨[], 0, 0⟩).start = 0)) :=
  ⟨by decide, empty_transcript_anchors_at_zero [['a'], ['b'], ['c']] 1 (by decide)⟩

/- ---------------------------------------------------------------------
   Splitter lemmas.
   --------------------------------------------------------------------- -/

lemma strip_eq_rdropWhile (s : List Char) :
    strip s = List.rdropWhile isPySpace (s.dropWhile isPySpace) := rfl

lemma dropWhile_rdropWhile_dropWhile (p : Char → Bool) (l : List Char) :
    List.dropWhile p (List.rdropWhile p (l.dropWhile p)) =
      List.rdropWhile p (l.dropWhile p) := by
  rw [List.dropWhile_eq_self_iff]
  intro hl
  obtain ⟨t, ht⟩ := List.rdropWhile_prefix p (l.dropWhile p)
  have h0 : 0 < (l.dropWhile p).length := by
    rw [← ht, List.length_append]
    omega
  have hget : (l.dropWhile p).get ⟨0, h0⟩ =
      (List.rdropWhile p (l.dropWhile p)).get ⟨0, hl⟩ := by
    have h1 : (List.dropWhile p l)[0]? = (List.rdropWhile p (List.dropWhile p l))[0]? := by
      conv_lhs => rw [← ht]
      exact List.getElem?_append_left hl
    rw [List.getElem?_eq_getElem h0, List.getElem?_eq_getElem hl] at h1
    rw [List.get_eq_getElem, List.get_eq_getElem]
    exact Option.some.inj h1
  have := List.dropWhile_get_zero_not p l h0
  rwa [hget] at this

lemma strip_idem (s : List Char) : strip (strip s) = strip s := by
  rw [strip_eq_rdropWhile, strip_eq_rdropWhile, dropWhile_rdropWhile_dropWhile,
    List.rdropWhile_idempotent]

lemma strip_subset (s : List Char) : ∀ c ∈ strip s, c ∈ s := by
  intro c hc
  rw [strip_eq_rdropWhile] at hc
  have hpre := List.rdropWhile_prefix isPySpace (s.dropWhile isPySpace)
  have h1 : c ∈ s.dropWhile isPySpace := hpre.sublist.subset hc
  exact (List.dropWhile_suffix isPySpace).sublist.subset h1

lemma splitOnPunctAux_no_punct (text : List Char) :
    ∀ (acc : List Char), (∀ c ∈ acc, isTerminalPunct c = false) →
      ∀ piece ∈ splitOnPunctAux text acc, ∀ c ∈ piece, isTerminalPunct c = false := by
  induction text with
  | nil =>
    intro acc hacc piece hp c hc
    simp only [splitOnPunctAux, List.mem_singleton] at hp
    subst hp
    exact hacc c (List.mem_reverse.mp hc)
  | cons a cs ih =>
    intro acc hacc piece hp c hc
    by_cases h : isTerminalPunct a = true
    · simp only [splitOnPunctAux, h, if_pos, List.mem_cons] at hp
      rcases hp with rfl | hp
      · exact hacc c (List.mem_reverse.mp hc)
      · exact ih [] (by simp) piece hp c hc
    · rw [Bool.not_eq_true] at h
      simp only [splitOnPunctAux, h, Bool.false_eq_true, if_false] at hp
      refine ih (a :: acc) ?_ piece hp c hc
      intro x hx
      rcases List.mem_cons.mp hx with rfl | hx
      · exact h
      · exact hacc x hx

/-- C4: every sentence the splitter produces is non-empty, already
trimmed (stripping it again changes nothing), and contains none of the
terminal punctuation characters; and the sentence list is the in-order
sublist of the stripped punctuation-split pieces of the normalized text
surviving the non-emptiness filter. -/
theorem splitter_trims_and_removes_punct (text : List Char) :
    (∀ s ∈ splitSentences text,
      s ≠ [] ∧ strip s = s ∧ ∀ c ∈ s, isTerminalPunct c = false) ∧
    List.Sublist (splitSentences text)
      ((splitOnPunct (normalizeText text)).map strip) := by
  constructor
  · intro s hs
    have hs' := hs
    simp only [splitSentences, List.mem_filter, decide_eq_true_eq] at hs'
    obtain ⟨hmem, hne⟩ := hs'
    obtain ⟨piece, hpiece, rfl⟩ := List.mem_map.mp hmem
    refine ⟨hne, strip_idem piece, ?_⟩
    intro c hc
    exact splitOnPunctAux_no_punct (normalizeText text) [] (by simp) piece hpiece c
      (strip_subset piece c hc)
  · exact List.filter_sublist _

/-- Witness for C4 on the text "Hi there. Bye!": both sentences are
non-empty, trimmed and punctuation-free. -/
theorem splitter_trims_and_removes_punct_witness :
    (("Hi there").toList ∈ splitSentences (("Hi there. Bye!").toList)) ∧
    (("Hi there").toList ≠ [] ∧ strip (("Hi there").toList) = ("Hi there").toList ∧
      ∀ c ∈ ("Hi there").toList, isTerminalPunct c = false) := by
  have h := (splitter_trims_and_removes_punct (("Hi there. Bye!").toList)).1
  have hmem : ("Hi there").toList ∈ splitSentences (("Hi there. Bye!").toList) := by
    decide
  exact ⟨hmem, h (("Hi there").toList) hmem⟩

/- ---------------------------------------------------------------------
   Line-wrap lemmas.
   --------------------------------------------------------------------- -/

lemma joinWords_append_singleton (cur : List (List Char)) (w : List Char) :
    (joinWords (cur ++ [w])).length =
      if cur = [] then w.length else (joinWords cur).length + 1 + w.length := by
  induction cur with
  | nil => simp [joinWords]
  | cons a cur' ih =>
    cases cur' with
    | nil =>
      have h1 : joinWords ([a] ++ [w]) = a ++ ' ' :: joinWords [w] := rfl
      rw [h1]
      simp only [ne_eq, reduceCtorEq, not_false_eq_true, if_neg, joinWords,
        List.length_append, List.length_cons]
      omega
    | cons b cur2 =>
      have h1 : joinWords (a :: (b :: cur2) ++ [w]) =
          a ++ ' ' :: joinWords ((b :: cur2) ++ [w]) := rfl
      have h2 : joinWords (a :: b :: cur2) = a ++ ' ' :: joinWords (b :: cur2) := rfl
      rw [List.cons_append] at h1 ⊢
      rw [h1, h2]
      simp only [List.cons_append, ne_eq, reduceCtorEq, not_false_eq_true, if_neg] at ih ⊢
      simp only [List.length_append, List.length_cons, ih]
      omega

lemma wrapAux_budget (ws : List (List Char)) :
    ∀ (cur : List (List Char)) (cl : ℕ),
      (joinWords cur).length ≤ cl →
      (2 ≤ cur.length → (joinWords cur).length ≤ 30) →
      (∀ w ∈ cur, 30 < w.length → cur = [w]) →
      ∀ line ∈ wrapAux ws cur cl,
        (2 ≤ line.length → (joinWords line).length ≤ 30) ∧
        (∀ w ∈ line, 30 < w.length → line = [w]) := by
  induction ws with
  | nil =>
    intro cur cl _ h2 h3 line hline
    by_cases hc : cur = []
    · simp [wrapAux, hc] at hline
    · simp only [wrapAux] at hline
      rw [if_neg hc, List.mem_singleton] at hline
      subst hline
      exact ⟨h2, h3⟩
  | cons w ws ih =>
    intro cur cl h1 h2 h3 line hline
    by_cases hb : cl + w.length + 1 ≤ 30
    · simp only [wrapAux] at hline
      rw [if_pos hb] at hline
      refine ih (cur ++ [w]) (cl + w.length + 1) ?_ ?_ ?_ line hline
      · rw [joinWords_append_singleton]
        split_ifs <;> omega
      · intro _
        rw [joinWords_append_singleton]
        split_ifs <;> omega
      · intro u hu h30
        exfalso
        rcases List.mem_append.mp hu with hu | hu
        · have hcur := h3 u hu h30
          rw [hcur] at h1
          have : (joinWords [u]).length = u.length := by simp [joinWords]
          omega
        · rw [List.mem_singleton] at hu
          subst hu
          omega
    · by_cases hc : cur = []
      · simp only [wrapAux] at hline
        rw [if_neg hb, if_pos hc] at hline
        refine ih [w] w.length (by simp [joinWords]) ?_ ?_ line hline
        · intro h
          simp at h
        · intro u hu _
          rw [List.mem_singleton] at hu
          subst hu
          rfl
      · simp only [wrapAux] at hline
        rw [if_neg hb, if_neg hc] at hline
        rcases List.mem_cons.mp hline with rfl | hline
        · exact ⟨h2, h3⟩
        · refine ih [w] w.length (by simp [joinWords]) ?_ ?_ line hline
          · intro h
            simp at h
          · intro u hu _
            rw [List.mem_singleton] at hu
            subst hu
            rfl

lemma wrapAux_join (ws : List (List Char)) :
    ∀ (cur : List (List Char)) (cl : ℕ), (wrapAux ws cur cl).flatten = cur ++ ws := by
  induction ws with
  | nil =>
    intro cur cl
    by_cases hc : cur = [] <;> simp [wrapAux, hc]
  | cons w ws ih =>
    intro cur cl
    by_cases hb : cl + w.length + 1 ≤ 30
    · simp only [wrapAux]
      rw [if_pos hb, ih]
      simp
    · by_cases hc : cur = []
      · simp only [wrapAux]
        rw [if_neg hb, if_pos hc, ih, hc]
        simp
      · simp only [wrapAux]
        rw [if_neg hb, if_neg hc]
        simp [ih]

/-- C6: every wrapped line holding at least two words renders (words
joined by single spaces) to at most 30 characters; an over-budget word
(longer than 30) always sits alone on its line; and the concatenation of
the words of the lines is exactly the original word sequence of the text —
nothing dropped, duplicated or reordered. -/
theorem wrap_within_budget_and_lossless (text : List Char) :
    (∀ line ∈ wrapLines text,
      (2 ≤ line.length → (joinWords line).length ≤ 30) ∧
      (∀ w ∈ line, 30 < w.length → line = [w])) ∧
    (wrapLines text).flatten = splitWords text := by
  constructor
  · intro line hline
    refine wrapAux_budget (splitWords text) [] 0 ?_ ?_ ?_ line hline
    · simp [joinWords]
    · intro h
      simp at h
    · intro u hu
      simp at hu
  · simpa using wrapAux_join (splitWords text) [] 0

/-- Witness for C6 on the text "aa bb": the single produced line has two
words, renders within budget, and the lines flatten back to the words. -/
theorem wrap_within_budget_and_lossless_witness :
    ([['a', 'a'], ['b', 'b']] ∈ wrapLines (("aa bb").toList) ∧
      ((2 ≤ [['a', 'a'], ['b', 'b']].length →
        (joinWords [['a', 'a'], ['b', 'b']]).length ≤ 30) ∧
      (∀ w ∈ [['a', 'a'], ['b', 'b']], 30 < w.length → [['a', 'a'], ['b', 'b']] = [w]))) ∧
    (wrapLines (("aa bb").toList)).flatten = splitWords (("aa bb").toList) := by
  refine ⟨⟨by decide, ?_⟩, (wrap_within_budget_and_lossless (("aa bb").toList)).2⟩
  exact (wrap_within_budget_and_lossless (("aa bb").toList)).1
    [['a', 'a'], ['b', 'b']] (by decide)

/- ---------------------------------------------------------------------
   Auto-fit, selector and composition lemmas.
   --------------------------------------------------------------------- -/

lemma truncInt_lt_of_lt {q : ℚ} {n : ℤ} (hn : 0 < n) (h : q < (n : ℚ)) :
    truncInt q < n := by
  unfold truncInt
  split_ifs with h0
  · exact Int.floor_lt.mpr h
  · have hceil : ⌈q⌉ ≤ 0 := Int.ceil_le.mpr (by exact_mod_cast le_of_lt (lt_of_not_ge h0))
    omega

/-- C5: the auto-fit never yields a size below the minimum 60; and for
any measured bounding-box width (at initial size 120) exceeding
width - 100, the resulting size is strictly below 120 and still at
least 60. -/
theorem autofit_bounded (width : ℤ) (textWidth : ℚ) :
    60 ≤ autoFitFontSize width textWidth ∧
    (0 ≤ textWidth → (width : ℚ) - 100 < textWidth →
      autoFitFontSize width textWidth < 120 ∧ 60 ≤ autoFitFontSize width textWidth) := by
  constructor
  · unfold autoFitFontSize
    split_ifs
    · exact le_max_right _ _
    · norm_num
  · intro h0 hlt
    have hmin : 60 ≤ autoFitFontSize width textWidth := by
      unfold autoFitFontSize
      split_ifs
      · exact le_max_right _ _
      · norm_num
    refine ⟨?_, hmin⟩
    have hrw : autoFitFontSize width textWidth =
        max (truncInt (((120 : ℤ) : ℚ) * (((width : ℚ) - 100) / textWidth))) 60 := by
      unfold autoFitFontSize
      rw [if_pos hlt]
    rw [hrw]
    rcases eq_or_lt_of_le h0 with h0' | h0'
    · have hz : ((120 : ℤ) : ℚ) * (((width : ℚ) - 100) / textWidth) = 0 := by
        rw [← h0']
        simp
      rw [hz]
      have ht0 : truncInt 0 = 0 := by norm_num [truncInt]
      rw [ht0]
      norm_num
    · have hq : ((120 : ℤ) : ℚ) * (((width : ℚ) - 100) / textWidth) < ((120 : ℤ) : ℚ) := by
        have hr : ((width : ℚ) - 100) / textWidth < 1 := (div_lt_one h0').mpr hlt
        push_cast
        nlinarith
      have hlt120 := truncInt_lt_of_lt (by norm_num : (0 : ℤ) < 120) hq
      exact max_lt hlt120 (by norm_num)

/-- Witness for C5 at width 1080 and measured text width 2000: the fit
size is below 120 and at least 60. -/
theorem autofit_bounded_witness :
    ((0 : ℚ) ≤ 2000 ∧ (1080 : ℚ) - 100 < 2000) ∧
    (60 ≤ autoFitFontSize 1080 2000 ∧
      (autoFitFontSize 1080 2000 < 120 ∧ 60 ≤ autoFitFontSize 1080 2000)) :=
  ⟨⟨by norm_num, by norm_num⟩,
   ⟨(autofit_bounded 1080 2000).1,
    (autofit_bounded 1080 2000).2 (by norm_num) (by norm_num)⟩⟩

/-- C7: for every value of the unit random draw, the selected background
offset o satisfies 0 ≤ o and o + D ≤ asset duration whenever the asset is
long enough, and is exactly 0 otherwise. -/
theorem offset_within_asset (totalDuration requiredDuration r : ℚ)
    (h0 : 0 ≤ r) (h1 : r ≤ 1) :
    (requiredDuration ≤ totalDuration →
      0 ≤ get_random_start_time totalDuration requiredDuration r ∧
      get_random_start_time totalDuration requiredDuration r + requiredDuration ≤
        totalDuration) ∧
    (totalDuration < requiredDuration →
      get_random_start_time totalDuration requiredDuration r = 0) := by
  unfold get_random_start_time
  constructor
  · intro hle
    rw [if_neg (not_lt.mpr hle)]
    constructor
    · exact mul_nonneg (by linarith) h0
    · nlinarith
  · intro hlt
    rw [if_pos hlt]

/-- Witness for C7 at asset duration 10, required duration 4, draw 1/2:
the offset is non-negative and the window fits. -/
theorem offset_within_asset_witness :
    ((0 : ℚ) ≤ 1 / 2 ∧ (1 / 2 : ℚ) ≤ 1 ∧ (4 : ℚ) ≤ 10) ∧
    (0 ≤ get_random_start_time 10 4 (1 / 2) ∧
      get_random_start_time 10 4 (1 / 2) + 4 ≤ 10) :=
  ⟨⟨by norm_num, by norm_num, by norm_num⟩,
   (offset_within_asset 10 4 (1 / 2) (by norm_num) (by norm_num)).1 (by norm_num)⟩

lemma foldl_append_overlay (captions : List Caption) :
    ∀ (init : List Stage),
      captions.foldl (fun acc c => acc ++ [overlayStage c]) init =
        init ++ captions.map overlayStage := by
  induction captions with
  | nil => intro init; simp
  | cons c rest ih =>
    intro init
    simp only [List.foldl_cons, List.map_cons]
    rw [ih]
    simp

/-- C8: the plan is the fixed chain scale, pad, loop, trim (trim duration
the audio duration) followed by one overlay stage per caption in caption
order; each overlay is gated by between(t, start, end), fades in for 0.2s
from start and fades out for 0.2s from end - 0.2, ending exactly at end;
one audio stream is attached and the encoder runs exactly once. -/
theorem composition_plan_structure (audioDuration : ℚ) (captions : List Caption) :
    (buildCompositionPlan audioDuration captions).stages =
      [Stage.scale 1080 (-1), Stage.pad 1080 1920,
       Stage.loopStage 0 (truncInt audioDuration), Stage.trim audioDuration] ++
        captions.map overlayStage ∧
    (∀ c ∈ captions,
      overlayStage c =
        Stage.overlay c.start c.endTime c.start (1 / 5) (c.endTime - 1 / 5) (1 / 5) ∧
      c.endTime - 1 / 5 + 1 / 5 = c.endTime) ∧
    (buildCompositionPlan audioDuration captions).audioStreams = 1 ∧
    (buildCompositionPlan audioDuration captions).encoderRuns = 1 := by
  refine ⟨?_, ?_, rfl, rfl⟩
  · simpa [buildCompositionPlan, baseStages] using
      foldl_append_overlay captions (baseStages audioDuration)
  · intro c _
    exact ⟨rfl, by ring⟩

/-- Witness for C8 at audio duration 5 and one caption from 1 to 2: the
stages are the base chain plus the overlay of that caption, whose fade-out
ends exactly at 2. -/
theorem composition_plan_structure_witness :
    (buildCompositionPlan 5 [{ text := ['a'], start := 1, endTime := 2 }]).stages =
      [Stage.scale 1080 (-1), Stage.pad 1080 1920,
       Stage.loopStage 0 (truncInt 5), Stage.trim 5] ++
        [({ text := ['a'], start := 1, endTime := 2 } : Caption)].map overlayStage ∧
    (overlayStage { text := ['a'], start := 1, endTime := 2 } =
        Stage.overlay 1 2 1 (1 / 5) ((2 : ℚ) - 1 / 5) (1 / 5) ∧
      (2 : ℚ) - 1 / 5 + 1 / 5 = 2) ∧
    (buildCompositionPlan 5 [{ text := ['a'], start := 1, endTime := 2 }]).audioStreams = 1 ∧
    (buildCompositionPlan 5 [{ text := ['a'], start := 1, endTime := 2 }]).encoderRuns = 1 := by
  have h := composition_plan_structure 5 [{ text := ['a'], start := 1, endTime := 2 }]
  exact ⟨h.1,
    h.2.1 { text := ['a'], start := 1, endTime := 2 } (List.mem_singleton.mpr rfl),
    h.2.2.1, h.2.2.2⟩

/- ---------------------------------------------------------------------
   Error-flow theorems.
   --------------------------------------------------------------------- -/

/-- C9 counterexample: in a run where the background exists, transcription
succeeds and the caption-image stage raises "disk full", the error
surfaced to the caller is the bare "disk full" — it is not wrapped with
the stage-context prefixes "Error creating caption image: " or
"Error composing video: " the claim asserts. -/
theorem stage_error_not_wrapped_counterexample :
    (createTiktokVideoRun
        { backgroundExists := true,
          transcription := Except.ok [{ start := 0, endTime := 1, text := [] }],
          renderCaption := fun _ => Except.error ("disk full"),
          encodeResult := Except.ok () }
        (("Hi.").toList)).2 = Except.error ("disk full") ∧
    ("disk full" : String) ≠ ("Error creating caption image: ") ++ ("disk full") ∧
    ("disk full" : String) ≠ ("Error composing video: ") ++ ("disk full") := by
  refine ⟨rfl, by decide, by decide⟩

/-- C9 amended: when the background asset is absent the job fails with the
missing-asset error before any stage runs (the trace holds no
transcription, caption write or encoder event, only the diagnostic
print); and every stage failure is surfaced to the caller as the original
exception re-raised unchanged, after the single diagnostic print
"Error creating TikTok video: ..." is appended to the trace. -/
theorem error_flow_surfaces_original (env : JobEnv) (text : List Char) :
    (env.backgroundExists = false →
      createTiktokVideoRun env text =
        ([Event.printedError (("Error creating TikTok video: ") ++ bgMissingMsg)],
          Except.error bgMissingMsg)) ∧
    (∀ e, (tryBody env text).2 = Except.error e →
      (createTiktokVideoRun env text).2 = Except.error e ∧
      (createTiktokVideoRun env text).1 =
        (tryBody env text).1 ++
          [Event.printedError (("Error creating TikTok video: ") ++ e)]) := by
  constructor
  · intro hbg
    have htb : tryBody env text = ([], Except.error bgMissingMsg) := by
      unfold tryBody
      rw [if_pos hbg]
    unfold createTiktokVideoRun
    rw [htb]
    rfl
  · intro e he
    rcases htb : tryBody env text with ⟨evs, r⟩
    rw [htb] at he
    simp only at he
    subst he
    unfold createTiktokVideoRun
    rw [htb]
    exact ⟨rfl, rfl⟩

/-- Witness for C9 amended at an environment with the background asset
missing: the run yields exactly the diagnostic print and surfaces the
missing-asset error. -/
theorem error_flow_surfaces_original_witness :
    createTiktokVideoRun
        { backgroundExists := false, transcription := Except.ok [],
          renderCaption := fun _ => Except.ok "", encodeResult := Except.ok () } [] =
      ([Event.printedError (("Error creating TikTok video: ") ++ bgMissingMsg)],
        Except.error bgMissingMsg) ∧
    (createTiktokVideoRun
        { backgroundExists := false, transcription := Except.ok [],
          renderCaption := fun _ => Except.ok "", encodeResult := Except.ok () } []).2 =
      Except.error bgMissingMsg := by
  have h := error_flow_surfaces_original
    { backgroundExists := false, transcription := Except.ok [],
      renderCaption := fun _ => Except.ok "", encodeResult := Except.ok () } []
  exact ⟨h.1 rfl, (h.2 bgMissingMsg rfl).1⟩

end HeadlineSurfers
